import Mathlib

/-!
Verification of the recommendation-ledger component (`AgentMemory` in
`memory_system.py`) of the stock-trader repository.

Modelling conventions:
* Python dicts become association lists `List (κ × α)`; `d[k] = v` keeps the
  first binding's position and appends new keys, exactly like dict
  insertion-order semantics (`dupsert` / `dinsert`), and `d.get(k)` is
  `dlookup`.
* Calendar dates (`'%Y-%m-%d'` keys) become integer day numbers `ℤ`; the
  current instant `datetime.now()` becomes a rational `now : ℚ` counted in
  days, so `⌊now⌋` is today's date and `now - ⌊now⌋` the time of day.
  `sorted(..., reverse=True)` over date keys becomes `sortDesc`.
* Prices, shares and money amounts become `ℚ`.
* The one fallible computation (`calculate_recommendation_outcomes` can raise
  `ZeroDivisionError`) returns `Option`; persistence write failures become an
  `Except StorageError` result.
-/

namespace AgentMemory

/-- Association-list lookup: Python `d.get(k)` / `k in d` + `d[k]`. -/
def dlookup {κ α : Type} [DecidableEq κ] (k : κ) : List (κ × α) → Option α
  | [] => none
  | p :: rest => if p.1 = k then some p.2 else dlookup k rest

/-- Python dict update `d[k] = f(d.get(k))`: replaces the first binding of `k`
in place, appends a new binding when `k` is absent. -/
def dupsert {κ α : Type} [DecidableEq κ] (k : κ) (f : Option α → α) :
    List (κ × α) → List (κ × α)
  | [] => [(k, f none)]
  | p :: rest => if p.1 = k then (k, f (some p.2)) :: rest else p :: dupsert k f rest

/-- Python dict assignment `d[k] = v`. -/
def dinsert {κ α : Type} [DecidableEq κ] (k : κ) (v : α) (l : List (κ × α)) :
    List (κ × α) :=
  dupsert k (fun _ => v) l

/-- The keys of an association list are pairwise distinct (true of every state
that arises from a Python dict). -/
abbrev NodupKeys {κ α : Type} (l : List (κ × α)) : Prop := (l.map Prod.fst).Nodup

/-- Insert into a list kept sorted by key, largest key first. -/
def insertDesc {α : Type} (x : ℤ × α) : List (ℤ × α) → List (ℤ × α)
  | [] => [x]
  | y :: ys => if y.1 ≤ x.1 then x :: y :: ys else y :: insertDesc x ys

/-- `sorted(d.items(), reverse=True)` over integer date keys. -/
def sortDesc {α : Type} (l : List (ℤ × α)) : List (ℤ × α) :=
  l.foldr insertDesc []

/-- The per-ticker record stored under `recommendations[date]['stocks'][ticker]`. -/
structure StockData where
  action : String
  price : ℚ
  reason : String
  timestamp : ℚ
  deriving DecidableEq, Repr

/-- The per-date record stored under `recommendations[date]`. -/
structure DayData where
  date : ℤ
  session : String
  stocks : List (String × StockData)
  deriving DecidableEq, Repr

/-- The `recommendations` table: date → day record. -/
abbrev RecState := List (ℤ × DayData)

/-- One flattened recommendation as produced by `get_recent_recommendations`
(`{'date': ..., 'ticker': ..., **stock_data}`). -/
structure RecRecord where
  date : ℤ
  ticker : String
  info : StockData
  deriving DecidableEq, Repr

/-- `AgentMemory.save_recommendation`: creates today's day record (with the
call's `session`) when absent, then writes the per-ticker entry. -/
def save_recommendation (st : RecState) (now : ℚ) (ticker action : String)
    (price : ℚ) (reason session : String) : RecState :=
  dupsert ⌊now⌋ (fun old =>
    match old with
    | none => { date := ⌊now⌋, session := session,
                stocks := [(ticker, ⟨action, price, reason, now⟩)] }
    | some day => { day with stocks := dinsert ticker ⟨action, price, reason, now⟩ day.stocks })
    st

/-- One date's contribution to `get_recent_recommendations`. Python's
`if ticker:` is false both for `None` and for the empty string, in which case
every stock of the date is emitted. -/
def expandDay (ticker : Option String) (d : ℤ) (day : DayData) : List RecRecord :=
  match ticker with
  | some t =>
    if t = "" then day.stocks.map (fun q => ⟨d, q.1, q.2⟩)
    else
      match dlookup t day.stocks with
      | some sd => [⟨d, t, sd⟩]
      | none => []
  | none => day.stocks.map (fun q => ⟨d, q.1, q.2⟩)

/-- `AgentMemory.get_recent_recommendations`: walk the dates in descending
order and stop (`break`) at the first date with `date < cutoff` where
`cutoff = datetime.now() - timedelta(days=days)`. -/
def get_recent_recommendations (st : RecState) (now : ℚ) (ticker : Option String)
    (days : ℕ) : List RecRecord :=
  ((sortDesc st).takeWhile (fun p => !(decide ((p.1 : ℚ) < now - (days : ℚ))))).flatMap
    (fun p => expandDay ticker p.1 p.2)

/-- `AgentMemory.count_recommendations`. -/
def count_recommendations (st : RecState) (now : ℚ) (ticker : String) (days : ℕ) : ℕ :=
  (get_recent_recommendations st now (some ticker) days).length

/-- The per-date record stored under `portfolio_history[date]`. -/
structure Snapshot where
  date : ℤ
  portfolio : List (String × ℚ)
  cash : ℚ
  total_value : ℚ
  timestamp : ℚ
  deriving DecidableEq, Repr

/-- The `portfolio_history` table: date → snapshot. -/
abbrev PortState := List (ℤ × Snapshot)

/-- `AgentMemory.save_portfolio_snapshot`. -/
def save_portfolio_snapshot (st : PortState) (now : ℚ) (portfolio : List (String × ℚ))
    (cash total_value : ℚ) : PortState :=
  dinsert ⌊now⌋ ⟨⌊now⌋, portfolio, cash, total_value, now⟩ st

/-- The per-date record stored under `market_context[date]`. -/
structure MarketCtx where
  date : ℤ
  tsx : ℚ
  oil : ℚ
  usd_cad : ℚ
  events : List String
  timestamp : ℚ
  deriving DecidableEq, Repr

/-- The `market_context` table: date → market snapshot. -/
abbrev CtxState := List (ℤ × MarketCtx)

/-- `AgentMemory.save_market_context` (`key_events or []` turns `None` — and an
empty list — into `[]`). -/
def save_market_context (st : CtxState) (now : ℚ) (tsx_level oil_price usd_cad : ℚ)
    (key_events : Option (List String)) : CtxState :=
  dinsert ⌊now⌋ ⟨⌊now⌋, tsx_level, oil_price, usd_cad, key_events.getD [], now⟩ st

/-- One entry of the list built by `get_portfolio_changes`. -/
inductive Change : Type
  | newPosition (ticker : String) (shares : ℚ)
  | addedTo (ticker : String) (added_shares total_shares : ℚ)
  | sold (ticker : String) (shares : ℚ)
  | reduced (ticker : String) (reduced_shares remaining_shares : ℚ)
  deriving DecidableEq, Repr

/-- The ticker an entry is about. -/
def Change.ticker : Change → String
  | .newPosition t _ => t
  | .addedTo t _ _ => t
  | .sold t _ => t
  | .reduced t _ _ => t

/-- The two `for` loops of `get_portfolio_changes`, over the current and the
past holdings maps. -/
def diffChanges (current past : List (String × ℚ)) : List Change :=
  (current.filterMap fun p =>
    match dlookup p.1 past with
    | none => some (.newPosition p.1 p.2)
    | some ps => if ps < p.2 then some (.addedTo p.1 (p.2 - ps) p.2) else none)
  ++ (past.filterMap fun p =>
    match dlookup p.1 current with
    | none => some (.sold p.1 p.2)
    | some cs => if cs < p.2 then some (.reduced p.1 (p.2 - cs) cs) else none)

/-- `AgentMemory.get_portfolio_changes`: `dates = sorted(keys, reverse=True)[:days+1]`,
empty when fewer than two dates, otherwise diff `dates[0]` against `dates[-1]`. -/
def get_portfolio_changes (hist : PortState) (days : ℕ) : List Change :=
  match (sortDesc hist).take (days + 1) with
  | [] => []
  | [_] => []
  | c :: c2 :: rest =>
    diffChanges c.2.portfolio (((c2 :: rest).getLast (List.cons_ne_nil c2 rest)).2.portfolio)

/-- One element of the list built by `calculate_recommendation_outcomes`. -/
structure Outcome where
  date : ℤ
  ticker : String
  action : String
  recommended_price : ℚ
  current_price : ℚ
  gain_pct : ℚ
  days_ago : ℤ
  status : String
  deriving DecidableEq, Repr

/-- The Outcome dict `calculate_recommendation_outcomes` appends for one
recommendation (`days_ago` is the `.days` — floor — of the `timedelta`). -/
def mkOutcome (d : ℤ) (now : ℚ) (t : String) (sd : StockData) (cp : ℚ) : Outcome :=
  ⟨d, t, sd.action, sd.price, cp, (cp - sd.price) / sd.price * 100, ⌊now - (d : ℚ)⌋,
    if (cp - sd.price) / sd.price * 100 > 0 then "winning" else "losing"⟩

/-- Inner loop of `calculate_recommendation_outcomes` over one date's stocks.
`if current_price:` is false for an absent ticker and for a zero price; the
division raises `ZeroDivisionError` (modelled as `none`) when the stored
`price` is zero. -/
def outcomesOfStocks (d : ℤ) (now : ℚ) (current_prices : List (String × ℚ)) :
    List (String × StockData) → Option (List Outcome)
  | [] => some []
  | q :: rest =>
    match dlookup q.1 current_prices with
    | none => outcomesOfStocks d now current_prices rest
    | some cp =>
      if cp = 0 then outcomesOfStocks d now current_prices rest
      else if q.2.price = 0 then none
      else
        (outcomesOfStocks d now current_prices rest).map fun os =>
          mkOutcome d now q.1 q.2 cp :: os

/-- `AgentMemory.calculate_recommendation_outcomes`: iterate all stored dates
(insertion order) and their stocks. -/
def calculate_recommendation_outcomes (st : RecState) (now : ℚ)
    (current_prices : List (String × ℚ)) : Option (List Outcome) :=
  match st with
  | [] => some []
  | e :: rest => do
    let os ← outcomesOfStocks e.1 now current_prices e.2.stocks
    let rest ← calculate_recommendation_outcomes rest now current_prices
    some (os ++ rest)

/-- The `for` loop of `get_ignored_recommendations`. -/
def ignoredFilter (current_portfolio : List String) : List RecRecord → List RecRecord
  | [] => []
  | rec :: rest =>
    if rec.info.action = "BUY" ∧ rec.ticker ∉ current_portfolio then
      rec :: ignoredFilter current_portfolio rest
    else ignoredFilter current_portfolio rest

/-- `AgentMemory.get_ignored_recommendations`. -/
def get_ignored_recommendations (st : RecState) (now : ℚ)
    (current_portfolio : List String) (days : ℕ) : List RecRecord :=
  ignoredFilter current_portfolio (get_recent_recommendations st now none days)

/-- `AgentMemory._find_repeated_stocks`: tally tickers, keep counts ≥ 2. -/
def find_repeated_stocks (recommendations : List RecRecord) : List (String × ℕ) :=
  (recommendations.foldl
    (fun acc rec => dupsert rec.ticker (fun c => c.getD 0 + 1) acc) []).filter
    (fun p => 2 ≤ p.2)

/-- The dict built by `generate_memory_summary`. -/
structure Summary where
  recent_recommendations_count : ℕ
  total_calls : ℕ
  win_rate : ℚ
  avg_gain : ℚ
  winning_trades : List Outcome
  losing_trades : List Outcome
  ignored_stocks : List RecRecord
  repeated_recommendations : List (String × ℕ)
  deriving DecidableEq, Repr

/-- `AgentMemory.generate_memory_summary`. A `ZeroDivisionError` escaping
`calculate_recommendation_outcomes` propagates (`none`). -/
def generate_memory_summary (st : RecState) (now : ℚ)
    (current_portfolio : List String) (current_prices : List (String × ℚ)) :
    Option Summary :=
  let recent_recs := get_recent_recommendations st now none 7
  match calculate_recommendation_outcomes st now current_prices with
  | none => none
  | some outcomes =>
    let ignored := get_ignored_recommendations st now current_portfolio 7
    let win_rate : ℚ :=
      if outcomes.isEmpty then 0
      else ((outcomes.filter (fun o => 0 < o.gain_pct)).length : ℚ) / (outcomes.length : ℚ) * 100
    let avg_gain : ℚ :=
      if outcomes.isEmpty then 0
      else (outcomes.map (fun o => o.gain_pct)).sum / (outcomes.length : ℚ)
    some
      { recent_recommendations_count := recent_recs.length
        total_calls := outcomes.length
        win_rate := win_rate
        avg_gain := avg_gain
        winning_trades := outcomes.filter (fun o => 5 < o.gain_pct)
        losing_trades := outcomes.filter (fun o => o.gain_pct < -5)
        ignored_stocks := ignored.take 5
        repeated_recommendations := find_repeated_stocks recent_recs }

/-- `AgentMemory.should_recommend_again` (the `price_change_threshold`
parameter and `last_rec['price']` are read but never used by the decision). -/
def should_recommend_again (st : RecState) (now : ℚ) (ticker : String)
    (days_since_last : ℕ) : Bool × String :=
  let recent := get_recent_recommendations st now (some ticker) days_since_last
  if recent.isEmpty then (true, "First time recommending")
  else (false, "Already recommended " ++ toString recent.length ++ " times in last "
    ++ toString days_since_last ++ " days")

/-- Reading one per-ticker record back out of the store. -/
def readStock (st : RecState) (d : ℤ) (ticker : String) : Option StockData :=
  (dlookup d st).bind fun day => dlookup ticker day.stocks

/-- Reading the session recorded for a date. -/
def readSession (st : RecState) (d : ℤ) : Option String :=
  (dlookup d st).map fun day => day.session

/-- What a backing-table read can find on disk. -/
inductive ReadResult (α : Type) : Type
  | ok (data : α)
  | missing
  | corrupt
  deriving DecidableEq, Repr

/-- `AgentMemory._load_json`: a missing file or a parse failure is swallowed
and the table starts empty. -/
def load_json {α : Type} : ReadResult (List α) → List α
  | .ok data => data
  | .missing => []
  | .corrupt => []

/-- A failure of the backing store during `_save_json`. -/
inductive StorageError : Type
  | writeError
  deriving DecidableEq, Repr

/-- `AgentMemory._save_json`: no handler, so a backend failure propagates. -/
def save_json {α : Type} (writeFails : Bool) (data : α) : Except StorageError α :=
  if writeFails then .error .writeError else .ok data

/-- The in-memory state loaded by `AgentMemory.__init__`. -/
structure Memory where
  recommendations : RecState
  portfolio_history : PortState
  market_context : CtxState
  deriving DecidableEq, Repr

/-- `AgentMemory.__init__`: load the three tables. -/
def initMemory (r : ReadResult RecState) (p : ReadResult PortState)
    (c : ReadResult CtxState) : Memory :=
  ⟨load_json r, load_json p, load_json c⟩

/-- `save_recommendation` including its final `_save_json`. -/
def save_recommendation_op (writeFails : Bool) (m : Memory) (now : ℚ)
    (ticker action : String) (price : ℚ) (reason session : String) :
    Except StorageError Memory :=
  (save_json writeFails (save_recommendation m.recommendations now ticker action price reason session)).map
    fun d => { m with recommendations := d }

/-- `save_portfolio_snapshot` including its final `_save_json`. -/
def save_portfolio_snapshot_op (writeFails : Bool) (m : Memory) (now : ℚ)
    (portfolio : List (String × ℚ)) (cash total_value : ℚ) :
    Except StorageError Memory :=
  (save_json writeFails (save_portfolio_snapshot m.portfolio_history now portfolio cash total_value)).map
    fun d => { m with portfolio_history := d }

/-- `save_market_context` including its final `_save_json`. -/
def save_market_context_op (writeFails : Bool) (m : Memory) (now : ℚ)
    (tsx_level oil_price usd_cad : ℚ) (key_events : Option (List String)) :
    Except StorageError Memory :=
  (save_json writeFails (save_market_context m.market_context now tsx_level oil_price usd_cad key_events)).map
    fun d => { m with market_context := d }

/-- All stored recommendation records, flattened in storage order. -/
def allRecords (st : RecState) : List RecRecord :=
  st.flatMap fun e => e.2.stocks.map fun q => ⟨e.1, q.1, q.2⟩

/-- Spec-side description of the outcome a single stored record contributes
(claim C1 as amended: an absent ticker or a zero current price contributes
nothing). -/
def outcomeSpec (now : ℚ) (current_prices : List (String × ℚ)) (r : RecRecord) :
    Option Outcome :=
  match dlookup r.ticker current_prices with
  | none => none
  | some cp => if cp = 0 then none else some (mkOutcome r.date now r.ticker r.info cp)

/-- Spec-side description of the win rate (claim C5 as amended: a percentage,
0 with no outcomes). -/
def winRateSpec (os : List Outcome) : ℚ :=
  if os = [] then 0
  else ((os.filter fun o => 0 < o.gain_pct).length : ℚ) / (os.length : ℚ) * 100

/-- Spec-side description of the average gain (mean of `gain_pct`, 0 with no
outcomes). -/
def avgGainSpec (os : List Outcome) : ℚ :=
  if os = [] then 0 else (os.map fun o => o.gain_pct).sum / (os.length : ℚ)

/-- The restriction the `ticker` argument of `get_recent_recommendations`
imposes on a returned record: none when the argument is `None` or the empty
string (both falsy in Python), otherwise equality. -/
abbrev tickerMatches (ticker : Option String) (t : String) : Prop :=
  match ticker with
  | none => True
  | some t0 => t0 = "" ∨ t = t0

/-- Every stored date has pairwise-distinct stock tickers. -/
abbrev NodupStocks (st : RecState) : Prop := ∀ e ∈ st, NodupKeys e.2.stocks

/-- Every stored snapshot has pairwise-distinct holding tickers. -/
abbrev NodupPortfolios (hist : PortState) : Prop := ∀ e ∈ hist, NodupKeys e.2.portfolio

/-- No stored recommendation has price 0 (the precondition of claim C9). -/
abbrev allPricesNonzero (st : RecState) : Prop :=
  ∀ e ∈ st, ∀ q ∈ e.2.stocks, q.2.price ≠ 0

section AssocLemmas

variable {κ α : Type} [DecidableEq κ]

theorem dlookup_mem {k : κ} {v : α} :
    ∀ {l : List (κ × α)}, dlookup k l = some v → (k, v) ∈ l := by
  intro l h
  induction l with
  | nil => simp [dlookup] at h
  | cons p rest ih =>
    rw [dlookup] at h
    by_cases hp : p.1 = k
    · rw [if_pos hp] at h
      obtain rfl : p.2 = v := Option.some.inj h
      exact List.mem_cons.mpr (Or.inl (by rw [← hp]))
    · rw [if_neg hp] at h
      exact List.mem_cons.mpr (Or.inr (ih h))

theorem dlookup_eq_some_of_mem {k : κ} {v : α} :
    ∀ {l : List (κ × α)}, NodupKeys l → (k, v) ∈ l → dlookup k l = some v := by
  intro l hnd hm
  induction l with
  | nil => cases hm
  | cons p rest ih =>
    rcases List.mem_cons.mp hm with heq | hmem
    · rw [← heq, dlookup, if_pos rfl]
    · have hk : k ∈ rest.map Prod.fst := List.mem_map.mpr ⟨(k, v), hmem, rfl⟩
      have hp : p.1 ≠ k := by
        rintro rfl
        exact (List.nodup_cons.mp hnd).1 hk
      rw [dlookup, if_neg hp]
      exact ih (List.nodup_cons.mp hnd).2 hmem

theorem dlookup_dupsert (k : κ) (f : Option α → α) :
    ∀ (l : List (κ × α)), dlookup k (dupsert k f l) = some (f (dlookup k l)) := by
  intro l
  induction l with
  | nil => simp [dlookup, dupsert]
  | cons p rest ih =>
    by_cases hp : p.1 = k
    · rw [dupsert, if_pos hp, dlookup, if_pos rfl, dlookup, if_pos hp]
    · rw [dupsert, if_neg hp, dlookup, if_neg hp, dlookup, if_neg hp, ih]

theorem dlookup_dinsert (k : κ) (v : α) (l : List (κ × α)) :
    dlookup k (dinsert k v l) = some v :=
  dlookup_dupsert k (fun _ => v) l

end AssocLemmas

section SortLemmas

variable {α : Type}

theorem perm_insertDesc (x : ℤ × α) :
    ∀ (l : List (ℤ × α)), List.Perm (insertDesc x l) (x :: l) := by
  intro l
  induction l with
  | nil => exact List.Perm.refl _
  | cons y ys ih =>
    rw [insertDesc]
    by_cases h : y.1 ≤ x.1
    · rw [if_pos h]
    · rw [if_neg h]
      exact (ih.cons y).trans (List.Perm.swap x y ys)

theorem perm_sortDesc : ∀ (l : List (ℤ × α)), List.Perm (sortDesc l) l := by
  intro l
  induction l with
  | nil => exact List.Perm.refl _
  | cons a l ih => exact (perm_insertDesc a (sortDesc l)).trans (ih.cons a)

theorem sorted_insertDesc {x : ℤ × α} {l : List (ℤ × α)}
    (h : l.Pairwise (fun a b => b.1 ≤ a.1)) :
    (insertDesc x l).Pairwise (fun a b => b.1 ≤ a.1) := by
  induction l with
  | nil => simp [insertDesc]
  | cons y ys ih =>
    rw [insertDesc]
    obtain ⟨hy, hys⟩ := List.pairwise_cons.mp h
    by_cases hle : y.1 ≤ x.1
    · rw [if_pos hle]
      refine List.pairwise_cons.mpr ⟨?_, h⟩
      intro z hz
      rcases List.mem_cons.mp hz with rfl | hz
      · exact hle
      · exact le_trans (hy z hz) hle
    · rw [if_neg hle]
      refine List.pairwise_cons.mpr ⟨?_, ih hys⟩
      intro z hz
      rcases List.mem_cons.mp ((perm_insertDesc x ys).mem_iff.mp hz) with rfl | hz
      · exact le_of_lt (lt_of_not_le hle)
      · exact hy z hz

theorem sorted_sortDesc : ∀ (l : List (ℤ × α)),
    (sortDesc l).Pairwise (fun a b => b.1 ≤ a.1) := by
  intro l
  induction l with
  | nil => simp [sortDesc]
  | cons a l ih => exact sorted_insertDesc ih

theorem takeWhile_eq_filter_of_sorted {β : Type} {R : β → β → Prop} {p : β → Bool}
    (hmono : ∀ a b, R a b → p a = false → p b = false) :
    ∀ {l : List β}, l.Pairwise R → l.takeWhile p = l.filter p := by
  intro l hl
  induction l with
  | nil => rfl
  | cons a l ih =>
    obtain ⟨ha, hl'⟩ := List.pairwise_cons.mp hl
    cases hpa : p a with
    | true =>
      rw [List.takeWhile_cons_of_pos hpa, List.filter_cons_of_pos hpa, ih hl']
    | false =>
      rw [List.takeWhile_cons_of_neg (by simp [hpa]), List.filter_cons_of_neg (by simp [hpa])]
      exact (List.filter_eq_nil_iff.mpr fun b hb => by
        simp [hmono a b (ha b hb) hpa]).symm

end SortLemmas

section RecentLemmas

theorem date_of_mem_expandDay {tk : Option String} {d : ℤ} {day : DayData}
    {r : RecRecord} (h : r ∈ expandDay tk d day) : r.date = d := by
  rcases tk with _ | t
  · obtain ⟨q, _, rfl⟩ := List.mem_map.mp h
    rfl
  · rw [expandDay] at h
    by_cases ht : t = ""
    · rw [if_pos ht] at h
      obtain ⟨q, _, rfl⟩ := List.mem_map.mp h
      rfl
    · rw [if_neg ht] at h
      rcases hlk : dlookup t day.stocks with _ | sd <;> rw [hlk] at h
      · cases h
      · rw [List.mem_singleton] at h
        rw [h]

theorem mem_expandDay {tk : Option String} {d : ℤ} {day : DayData} {r : RecRecord}
    (hday : NodupKeys day.stocks) :
    r ∈ expandDay tk d day ↔
      r.date = d ∧ dlookup r.ticker day.stocks = some r.info ∧
        tickerMatches tk r.ticker := by
  have hall : r ∈ day.stocks.map (fun q => (⟨d, q.1, q.2⟩ : RecRecord)) ↔
      r.date = d ∧ dlookup r.ticker day.stocks = some r.info := by
    constructor
    · intro h
      obtain ⟨q, hq, rfl⟩ := List.mem_map.mp h
      exact ⟨rfl, dlookup_eq_some_of_mem hday hq⟩
    · rintro ⟨hd, hlk⟩
      refine List.mem_map.mpr ⟨(r.ticker, r.info), dlookup_mem hlk, ?_⟩
      rw [← hd]
  rcases tk with _ | t
  · rw [show expandDay none d day = day.stocks.map (fun q => ⟨d, q.1, q.2⟩) from rfl,
      hall]
    simp [tickerMatches]
  · rw [expandDay]
    by_cases ht : t = ""
    · rw [if_pos ht]
      simp only [tickerMatches, ht]
      rw [hall]
      tauto
    · rw [if_neg ht]
      constructor
      · intro h
        rcases hlk : dlookup t day.stocks with _ | sd <;> rw [hlk] at h
        · cases h
        · rw [List.mem_singleton] at h
          subst h
          exact ⟨rfl, hlk, Or.inr rfl⟩
      · rintro ⟨hd, hlk, hmt | hmt⟩
        · exact absurd hmt ht
        · rw [hmt] at hlk
          rw [hlk]
          rw [List.mem_singleton]
          rw [← hd, ← hmt]

/-- The `break` predicate of `get_recent_recommendations`, as a function of the
sorted position: once a date fails the cutoff every later (smaller) date does. -/
theorem window_mono (now : ℚ) (days : ℕ) :
    ∀ a b : ℤ × DayData, b.1 ≤ a.1 →
      (!(decide ((a.1 : ℚ) < now - (days : ℚ)))) = false →
      (!(decide ((b.1 : ℚ) < now - (days : ℚ)))) = false := by
  intro a b hab ha
  simp only [Bool.not_eq_false', decide_eq_true_eq] at *
  exact lt_of_le_of_lt (by exact_mod_cast hab) ha

theorem mem_get_recent {st : RecState} {now : ℚ} {tk : Option String} {days : ℕ}
    {r : RecRecord} (h1 : NodupKeys st) (h2 : NodupStocks st) :
    r ∈ get_recent_recommendations st now tk days ↔
      readStock st r.date r.ticker = some r.info ∧
        now - (days : ℚ) ≤ (r.date : ℚ) ∧ tickerMatches tk r.ticker := by
  rw [get_recent_recommendations,
    takeWhile_eq_filter_of_sorted (window_mono now days) (sorted_sortDesc st),
    List.mem_flatMap]
  constructor
  · rintro ⟨p, hpf, hpe⟩
    obtain ⟨hpmem, hpred⟩ := List.mem_filter.mp hpf
    have hpst : p ∈ st := (perm_sortDesc st).mem_iff.mp hpmem
    obtain ⟨hdate, hlk, hmt⟩ := (mem_expandDay (h2 p hpst)).mp hpe
    have hread : readStock st r.date r.ticker = some r.info := by
      rw [readStock, hdate, dlookup_eq_some_of_mem h1 hpst]
      exact hlk
    refine ⟨hread, ?_, hmt⟩
    rw [hdate]
    simpa [not_lt] using hpred
  · rintro ⟨hread, hwin, hmt⟩
    rw [readStock] at hread
    rcases hday : dlookup r.date st with _ | day
    · rw [hday] at hread
      cases hread
    · rw [hday] at hread
      have hread' : dlookup r.ticker day.stocks = some r.info := hread
      have hmem : (r.date, day) ∈ st := dlookup_mem hday
      refine ⟨(r.date, day), List.mem_filter.mpr ⟨(perm_sortDesc st).mem_iff.mpr hmem, ?_⟩, ?_⟩
      · simpa [not_lt] using hwin
      · exact (mem_expandDay (h2 _ hmem)).mpr ⟨rfl, hread', hmt⟩

theorem pairwise_flatMap_expandDay (tk : Option String) :
    ∀ {l : List (ℤ × DayData)}, l.Pairwise (fun a b => b.1 ≤ a.1) →
      (l.flatMap fun p => expandDay tk p.1 p.2).Pairwise
        (fun a b : RecRecord => b.date ≤ a.date) := by
  intro l hl
  induction l with
  | nil => simp
  | cons a l ih =>
    obtain ⟨ha, hl'⟩ := List.pairwise_cons.mp hl
    rw [List.flatMap_cons, List.pairwise_append]
    refine ⟨?_, ih hl', ?_⟩
    · refine List.pairwise_of_forall_mem_list ?_
      intro x hx y hy
      rw [date_of_mem_expandDay hx, date_of_mem_expandDay hy]
    · intro x hx y hy
      obtain ⟨p, hp, hyp⟩ := List.mem_flatMap.mp hy
      rw [date_of_mem_expandDay hx, date_of_mem_expandDay hyp]
      exact ha p hp

theorem pairwise_get_recent (st : RecState) (now : ℚ) (tk : Option String) (days : ℕ) :
    (get_recent_recommendations st now tk days).Pairwise
      (fun a b : RecRecord => b.date ≤ a.date) :=
  pairwise_flatMap_expandDay tk
    (((sorted_sortDesc st).sublist (List.takeWhile_sublist _)))

end RecentLemmas

section DiffLemmas

theorem filter_filterMap_keyed_nil {g : String → ℚ → Option Change}
    (hg : ∀ k v c, g k v = some c → c.ticker = k) (t : String) :
    ∀ {l : List (String × ℚ)}, t ∉ l.map Prod.fst →
      ((l.filterMap fun p => g p.1 p.2).filter fun c => c.ticker = t) = [] := by
  intro l ht
  induction l with
  | nil => rfl
  | cons p rest ih =>
    rw [List.map_cons] at ht
    have ht1 : t ≠ p.1 := fun h => ht (List.mem_cons.mpr (Or.inl h))
    have ht2 : t ∉ rest.map Prod.fst := fun h => ht (List.mem_cons.mpr (Or.inr h))
    rw [List.filterMap_cons]
    cases hgp : g p.1 p.2 with
    | none => exact ih ht2
    | some c =>
      rw [List.filter_cons_of_neg (by simp [hg _ _ _ hgp, Ne.symm ht1]), ih ht2]

theorem filter_filterMap_keyed {g : String → ℚ → Option Change}
    (hg : ∀ k v c, g k v = some c → c.ticker = k) (t : String) :
    ∀ {l : List (String × ℚ)}, NodupKeys l →
      ((l.filterMap fun p => g p.1 p.2).filter fun c => c.ticker = t) =
        (match dlookup t l with
         | some v => (g t v).toList
         | none => []) := by
  intro l hnd
  induction l with
  | nil => rfl
  | cons p rest ih =>
    obtain ⟨hp1, hnd'⟩ :
        p.1 ∉ rest.map Prod.fst ∧ (rest.map Prod.fst).Nodup := List.nodup_cons.mp hnd
    rw [List.filterMap_cons]
    by_cases hpt : p.1 = t
    · subst hpt
      rw [dlookup, if_pos rfl]
      cases hgp : g p.1 p.2 with
      | none =>
        rw [filter_filterMap_keyed_nil hg p.1 hp1]
        show ([] : List Change) = (g p.1 p.2).toList
        rw [hgp]
        rfl
      | some c =>
        rw [List.filter_cons_of_pos (by simp [hg _ _ _ hgp]),
          filter_filterMap_keyed_nil hg p.1 hp1]
        show [c] = (g p.1 p.2).toList
        rw [hgp]
        rfl
    · rw [dlookup, if_neg hpt]
      cases hgp : g p.1 p.2 with
      | none => exact ih hnd'
      | some c =>
        rw [List.filter_cons_of_neg (by simp [hg _ _ _ hgp, hpt]), ih hnd']

/-- Per-ticker characterisation of `diffChanges` (the claim C4 classification). -/
theorem filter_diffChanges {current past : List (String × ℚ)} (t : String)
    (hc : NodupKeys current) (hp : NodupKeys past) :
    ((diffChanges current past).filter fun ch => ch.ticker = t) =
      (match dlookup t current, dlookup t past with
       | some cs, none => [Change.newPosition t cs]
       | some cs, some ps =>
         if ps < cs then [Change.addedTo t (cs - ps) cs]
         else if cs < ps then [Change.reduced t (ps - cs) cs]
         else []
       | none, some ps => [Change.sold t ps]
       | none, none => []) := by
  have hg1 : ∀ k v c,
      (match dlookup k past with
       | none => some (Change.newPosition k v)
       | some ps => if ps < v then some (Change.addedTo k (v - ps) v) else none) = some c →
      c.ticker = k := by
    intro k v c h
    rcases hlk : dlookup k past with _ | ps <;> rw [hlk] at h
    · cases h; rfl
    · have h' : (if ps < v then some (Change.addedTo k (v - ps) v) else none) = some c := h
      by_cases hcond : ps < v
      · rw [if_pos hcond] at h'
        cases h'; rfl
      · rw [if_neg hcond] at h'
        exact Option.noConfusion h'
  have hg2 : ∀ k v c,
      (match dlookup k current with
       | none => some (Change.sold k v)
       | some cs => if cs < v then some (Change.reduced k (v - cs) cs) else none) = some c →
      c.ticker = k := by
    intro k v c h
    rcases hlk : dlookup k current with _ | cs <;> rw [hlk] at h
    · cases h; rfl
    · have h' : (if cs < v then some (Change.reduced k (v - cs) cs) else none) = some c := h
      by_cases hcond : cs < v
      · rw [if_pos hcond] at h'
        cases h'; rfl
      · rw [if_neg hcond] at h'
        exact Option.noConfusion h'
  rw [diffChanges, List.filter_append,
    filter_filterMap_keyed hg1 t hc, filter_filterMap_keyed hg2 t hp]
  rcases hct : dlookup t current with _ | cs <;> rcases hpt : dlookup t past with _ | ps
  · rfl
  · rfl
  · rfl
  · by_cases h1 : ps < cs
    · simp [h1, not_lt_of_lt h1]
    · by_cases h2 : cs < ps
      · simp [h1, h2]
      · simp [h1, h2]

end DiffLemmas

section OutcomeLemmas

theorem outcomesOfStocks_cons_none (d : ℤ) (now : ℚ) (prices : List (String × ℚ))
    (q : String × StockData) (rest : List (String × StockData))
    (hlk : dlookup q.1 prices = none) :
    outcomesOfStocks d now prices (q :: rest) = outcomesOfStocks d now prices rest := by
  rw [outcomesOfStocks, hlk]

theorem outcomesOfStocks_cons_some (d : ℤ) (now : ℚ) (prices : List (String × ℚ))
    (q : String × StockData) (rest : List (String × StockData)) (cp : ℚ)
    (hlk : dlookup q.1 prices = some cp) :
    outcomesOfStocks d now prices (q :: rest) =
      (if cp = 0 then outcomesOfStocks d now prices rest
       else if q.2.price = 0 then none
       else (outcomesOfStocks d now prices rest).map fun os =>
         mkOutcome d now q.1 q.2 cp :: os) := by
  rw [outcomesOfStocks, hlk]

theorem outcomeSpec_at (now : ℚ) (prices : List (String × ℚ)) (d : ℤ)
    (q : String × StockData) :
    outcomeSpec now prices ⟨d, q.1, q.2⟩ =
      (match dlookup q.1 prices with
       | none => none
       | some cp => if cp = 0 then none else some (mkOutcome d now q.1 q.2 cp)) := rfl

theorem outcomesOfStocks_eq (d : ℤ) (now : ℚ) (prices : List (String × ℚ)) :
    ∀ (stocks : List (String × StockData)) (os : List Outcome),
      outcomesOfStocks d now prices stocks = some os →
      os = stocks.filterMap fun q => outcomeSpec now prices ⟨d, q.1, q.2⟩ := by
  intro stocks
  induction stocks with
  | nil =>
    intro os h
    cases h
    rfl
  | cons q rest ih =>
    intro os h
    rw [List.filterMap_cons]
    rcases hlk : dlookup q.1 prices with _ | cp
    · rw [outcomesOfStocks_cons_none d now prices q rest hlk] at h
      rw [outcomeSpec_at, hlk]
      exact ih os h
    · rw [outcomesOfStocks_cons_some d now prices q rest cp hlk] at h
      rw [outcomeSpec_at, hlk]
      dsimp only
      by_cases hcp : cp = 0
      · rw [if_pos hcp] at h
        rw [if_pos hcp]
        exact ih os h
      · rw [if_neg hcp] at h
        rw [if_neg hcp]
        by_cases hqp : q.2.price = 0
        · rw [if_pos hqp] at h
          exact Option.noConfusion h
        · rw [if_neg hqp] at h
          obtain ⟨os', hos', rfl⟩ := Option.map_eq_some'.mp h
          rw [ih os' hos']

theorem outcomesOfStocks_isSome (d : ℤ) (now : ℚ) (prices : List (String × ℚ)) :
    ∀ (stocks : List (String × StockData)), (∀ q ∈ stocks, q.2.price ≠ 0) →
      (outcomesOfStocks d now prices stocks).isSome = true := by
  intro stocks
  induction stocks with
  | nil => intro _; rfl
  | cons q rest ih =>
    intro h
    have hq : q.2.price ≠ 0 := h q (List.mem_cons_self q rest)
    have hrest : ∀ r ∈ rest, r.2.price ≠ 0 := fun r hr => h r (List.mem_cons.mpr (Or.inr hr))
    rcases hlk : dlookup q.1 prices with _ | cp
    · rw [outcomesOfStocks_cons_none d now prices q rest hlk]
      exact ih hrest
    · rw [outcomesOfStocks_cons_some d now prices q rest cp hlk]
      by_cases hcp : cp = 0
      · rw [if_pos hcp]
        exact ih hrest
      · rw [if_neg hcp, if_neg hq]
        obtain ⟨os', hos'⟩ := Option.isSome_iff_exists.mp (ih hrest)
        rw [hos']
        rfl

theorem calc_cons (e : ℤ × DayData) (rest : RecState) (now : ℚ)
    (prices : List (String × ℚ)) (os1 os2 : List Outcome)
    (h1 : outcomesOfStocks e.1 now prices e.2.stocks = some os1)
    (h2 : calculate_recommendation_outcomes rest now prices = some os2) :
    calculate_recommendation_outcomes (e :: rest) now prices = some (os1 ++ os2) := by
  rw [calculate_recommendation_outcomes]
  simp [h1, h2]

theorem calc_cons_inv (e : ℤ × DayData) (rest : RecState) (now : ℚ)
    (prices : List (String × ℚ)) (os : List Outcome)
    (h : calculate_recommendation_outcomes (e :: rest) now prices = some os) :
    ∃ os1 os2, outcomesOfStocks e.1 now prices e.2.stocks = some os1 ∧
      calculate_recommendation_outcomes rest now prices = some os2 ∧ os = os1 ++ os2 := by
  rw [calculate_recommendation_outcomes] at h
  rcases h1 : outcomesOfStocks e.1 now prices e.2.stocks with _ | os1 <;> rw [h1] at h
  · exact Option.noConfusion h
  · rcases h2 : calculate_recommendation_outcomes rest now prices with _ | os2 <;>
      rw [h2] at h
    · exact Option.noConfusion h
    · exact ⟨os1, os2, rfl, rfl, (Option.some.inj h).symm⟩

theorem calc_outcomes_isSome (now : ℚ) (prices : List (String × ℚ)) :
    ∀ (st : RecState), allPricesNonzero st →
      (calculate_recommendation_outcomes st now prices).isSome = true := by
  intro st
  induction st with
  | nil => intro _; rfl
  | cons e rest ih =>
    intro h
    have he : ∀ q ∈ e.2.stocks, q.2.price ≠ 0 := h e (List.mem_cons_self e rest)
    have hrest : allPricesNonzero rest := fun x hx q hq =>
      h x (List.mem_cons.mpr (Or.inr hx)) q hq
    obtain ⟨os1, hos1⟩ :=
      Option.isSome_iff_exists.mp (outcomesOfStocks_isSome e.1 now prices e.2.stocks he)
    obtain ⟨os2, hos2⟩ := Option.isSome_iff_exists.mp (ih hrest)
    rw [calc_cons e rest now prices os1 os2 hos1 hos2]
    rfl

end OutcomeLemmas

/-- C1 counterexample: the claim promises an Outcome whenever `currentPrices`
has an entry for the record's ticker, but a stored record for XYZ at price 50
with `currentPrices = {XYZ: 0}` — an entry present — produces no Outcome at
all (`if current_price:` is false at 0), where the claim would require one
with `gain_pct = -100`. -/
theorem C1_claim_counterexample :
    calculate_recommendation_outcomes
        [(0, ⟨0, "morning", [("XYZ", ⟨"BUY", 50, "r", 0⟩)]⟩)] 0 [("XYZ", (0 : ℚ))] =
      some [] ∧
    dlookup "XYZ" [("XYZ", (0 : ℚ))] = some 0 := by
  constructor
  · rfl
  · rfl

/-- C1 (amended): for every stored RecommendationRecord, `computeOutcomes`
emits exactly one Outcome whenever `currentPrices` has an entry with a
nonzero price for the record's ticker, with
`gain_pct = (current_price - recommended_price) / recommended_price * 100`
and `status = winning if gain_pct > 0 else losing`; records whose ticker is
absent from `currentPrices` — or maps to price 0 — are silently skipped.
Formally: whenever the computation succeeds, its result is exactly the
stored records mapped through `outcomeSpec`. -/
theorem C1_computeOutcomes_spec (st : RecState) (now : ℚ)
    (prices : List (String × ℚ)) (os : List Outcome)
    (h : calculate_recommendation_outcomes st now prices = some os) :
    os = (allRecords st).filterMap (outcomeSpec now prices) := by
  induction st generalizing os with
  | nil =>
    cases h
    rfl
  | cons e rest ih =>
    obtain ⟨os1, os2, h1, h2, rfl⟩ := calc_cons_inv e rest now prices os h
    calc os1 ++ os2
        = (e.2.stocks.filterMap fun q => outcomeSpec now prices ⟨e.1, q.1, q.2⟩) ++
            (allRecords rest).filterMap (outcomeSpec now prices) := by
          rw [← outcomesOfStocks_eq e.1 now prices e.2.stocks os1 h1, ← ih os2 h2]
      _ = (allRecords (e :: rest)).filterMap (outcomeSpec now prices) := by
          rw [show allRecords (e :: rest) =
                (e.2.stocks.map fun q => (⟨e.1, q.1, q.2⟩ : RecRecord)) ++ allRecords rest
              from rfl,
            List.filterMap_append, List.filterMap_map]
          rfl

/-- C1 witness: the claim's own scenario. One record `{XYZ, price 50}` with
`currentPrices = {XYZ: 60}` yields exactly one Outcome, `gain_pct = 20`,
`status = winning`, and it coincides with the spec-side description. -/
theorem C1_computeOutcomes_spec_witness :
    calculate_recommendation_outcomes
        [(0, ⟨0, "morning", [("XYZ", ⟨"BUY", 50, "r", 0⟩)]⟩)] 0 [("XYZ", (60 : ℚ))] =
      some [⟨0, "XYZ", "BUY", 50, 60, 20, 0, "winning"⟩] ∧
    [(⟨0, "XYZ", "BUY", 50, 60, 20, 0, "winning"⟩ : Outcome)] =
      (allRecords [(0, ⟨0, "morning", [("XYZ", ⟨"BUY", 50, "r", 0⟩)]⟩)]).filterMap
        (outcomeSpec 0 [("XYZ", (60 : ℚ))]) :=
  ⟨by norm_num [calculate_recommendation_outcomes, outcomesOfStocks, dlookup, mkOutcome],
    C1_computeOutcomes_spec [(0, ⟨0, "morning", [("XYZ", ⟨"BUY", 50, "r", 0⟩)]⟩)] 0
      [("XYZ", (60 : ℚ))] [⟨0, "XYZ", "BUY", 50, 60, 20, 0, "winning"⟩]
      (by norm_num [calculate_recommendation_outcomes, outcomesOfStocks, dlookup, mkOutcome])⟩

/-- C9: `computeOutcomes` divides by the stored price without a guard: a
stored record with price 0 whose ticker maps to a nonzero current price makes
the whole computation fail with a division-by-zero error (`none`); under the
precondition that every stored recommendation price is nonzero the operation
is total. -/
theorem C9_division_guard :
    calculate_recommendation_outcomes
        [(0, ⟨0, "morning", [("Z", ⟨"BUY", 0, "r", 0⟩)]⟩)] 0 [("Z", (10 : ℚ))] = none ∧
    ∀ (st : RecState) (now : ℚ) (prices : List (String × ℚ)),
      allPricesNonzero st →
      (calculate_recommendation_outcomes st now prices).isSome = true :=
  ⟨by decide, fun st now prices h => calc_outcomes_isSome now prices st h⟩

/-- C9 witness: a concrete store with all prices nonzero on which the
computation succeeds. -/
theorem C9_division_guard_witness :
    allPricesNonzero [(0, ⟨0, "morning", [("Z", ⟨"BUY", 25, "r", 0⟩)]⟩)] ∧
    (calculate_recommendation_outcomes
        [(0, ⟨0, "morning", [("Z", ⟨"BUY", 25, "r", 0⟩)]⟩)] 0
        [("Z", (10 : ℚ))]).isSome = true :=
  ⟨by decide,
    C9_division_guard.2 [(0, ⟨0, "morning", [("Z", ⟨"BUY", 25, "r", 0⟩)]⟩)] 0
      [("Z", (10 : ℚ))] (by decide)⟩

/-- C2 counterexample: one record stored exactly `windowDays` days ago, read
with the clock at half past midnight (`now = 1/2`, so `today = 0`): the
record's date `-7` lies within the claimed window `[today - 7, today]`, yet
`recentRecommendations` returns nothing, because the code's cutoff is the
instant `now - 7 = -6.5` and the stored midnight `-7` falls before it. -/
theorem C2_claim_counterexample :
    get_recent_recommendations
        [(-7, ⟨-7, "morning", [("A", ⟨"BUY", 10, "r", -7⟩)]⟩)] (1 / 2) none 7 = [] ∧
    (⌊(1 / 2 : ℚ)⌋ - 7 ≤ (-7 : ℤ) ∧ (-7 : ℤ) ≤ ⌊(1 / 2 : ℚ)⌋) := by
  constructor
  · norm_num [get_recent_recommendations, sortDesc, insertDesc]
  · norm_num

/-- C2 (amended): for every well-formed stored history (distinct date keys,
distinct tickers per date), `recentRecommendations` returns exactly the
stored records `r` with `now - windowDays ≤ r.date` — the cutoff is the
current instant minus `windowDays`, so a run strictly after midnight excludes
the date exactly `windowDays` ago and the window is
`[today - windowDays + 1, today]` for past-dated records, matching the
claimed `[today - windowDays, today]` only when run exactly at midnight —
optionally restricted to the given (nonempty) ticker, iterated most-recent
date first. -/
theorem C2_recentRecommendations_window (st : RecState) (now : ℚ)
    (tk : Option String) (days : ℕ) (r : RecRecord)
    (h1 : NodupKeys st) (h2 : NodupStocks st) :
    (r ∈ get_recent_recommendations st now tk days ↔
      readStock st r.date r.ticker = some r.info ∧
        now - (days : ℚ) ≤ (r.date : ℚ) ∧ tickerMatches tk r.ticker) ∧
    (get_recent_recommendations st now tk days).Pairwise
      (fun a b => b.date ≤ a.date) :=
  ⟨mem_get_recent h1 h2, pairwise_get_recent st now tk days⟩

/-- C2 witness: a single record recorded today, read at midnight with a 7-day
window and no ticker filter, is in the result, and the result is sorted. -/
theorem C2_recentRecommendations_window_witness :
    NodupKeys [((0 : ℤ), (⟨0, "morning", [("A", ⟨"BUY", 10, "r", 0⟩)]⟩ : DayData))] ∧
    NodupStocks [((0 : ℤ), ⟨0, "morning", [("A", ⟨"BUY", 10, "r", 0⟩)]⟩)] ∧
    (((⟨0, "A", ⟨"BUY", 10, "r", 0⟩⟩ : RecRecord) ∈
        get_recent_recommendations
          [((0 : ℤ), ⟨0, "morning", [("A", ⟨"BUY", 10, "r", 0⟩)]⟩)] 0 none 7 ↔
      readStock [((0 : ℤ), ⟨0, "morning", [("A", ⟨"BUY", 10, "r", 0⟩)]⟩)] 0 "A" =
          some ⟨"BUY", 10, "r", 0⟩ ∧
        (0 : ℚ) - ((7 : ℕ) : ℚ) ≤ ((0 : ℤ) : ℚ) ∧ tickerMatches none "A") ∧
    (get_recent_recommendations
        [((0 : ℤ), ⟨0, "morning", [("A", ⟨"BUY", 10, "r", 0⟩)]⟩)] 0 none 7).Pairwise
      (fun a b => b.date ≤ a.date)) :=
  ⟨by decide, by decide,
    C2_recentRecommendations_window
      [((0 : ℤ), ⟨0, "morning", [("A", ⟨"BUY", 10, "r", 0⟩)]⟩)] 0 none 7
      ⟨0, "A", ⟨"BUY", 10, "r", 0⟩⟩ (by decide) (by decide)⟩

/-- C3 counterexample: two `recordRecommendation` calls for the same
(date, ticker) — a morning BUY then an afternoon SELL — leave the stored
session at "morning", the first call's value, where the claim requires every
field including session to equal the final call's ("afternoon"). -/
theorem C3_claim_counterexample :
    readSession
        (save_recommendation
          (save_recommendation [] 0 "A" "BUY" 10 "r1" "morning")
          0 "A" "SELL" 20 "r2" "afternoon") 0 = some "morning" ∧
    ("morning" : String) ≠ "afternoon" := by
  constructor
  · norm_num [save_recommendation, readSession, dupsert, dinsert, dlookup]
  · decide

/-- C3 (amended): for all sequences of `recordRecommendation` calls with the
same (date, ticker), the per-ticker fields — action, price, reason,
timestamp — subsequently read for that key equal the values supplied by the
final call (last-write-wins); the day-level session field, however, is
write-once per date: it is set by the call that creates the date's entry and
left unchanged by every later call on that date. -/
theorem C3_lastWriteWins (st : RecState) (now : ℚ) (t a : String) (p : ℚ)
    (rs ss : String) :
    readStock (save_recommendation st now t a p rs ss) ⌊now⌋ t = some ⟨a, p, rs, now⟩ ∧
    readSession (save_recommendation st now t a p rs ss) ⌊now⌋ =
      some (match dlookup ⌊now⌋ st with
            | some day => day.session
            | none => ss) := by
  constructor
  · rw [readStock, save_recommendation, dlookup_dupsert]
    rcases dlookup ⌊now⌋ st with _ | day
    · show dlookup t [(t, (⟨a, p, rs, now⟩ : StockData))] = some ⟨a, p, rs, now⟩
      rw [dlookup, if_pos rfl]
    · show dlookup t (dinsert t (⟨a, p, rs, now⟩ : StockData) day.stocks) =
        some ⟨a, p, rs, now⟩
      exact dlookup_dinsert t _ day.stocks
  · rw [readSession, save_recommendation, dlookup_dupsert]
    rcases dlookup ⌊now⌋ st with _ | day
    · rfl
    · rfl

/-- C4: `portfolioChanges(windowDays)` diffs the most recent snapshot (the
head of the `windowDays+1` most recent stored dates) against the oldest
snapshot among them (the last), classifying each ticker exactly as claimed:
current-only gives one NEW_POSITION with the current count (and no ADDED_TO),
both with current > past gives ADDED_TO with added = current - past and
total = current, past-only gives SOLD with the past count, both with
past > current gives REDUCED with reduced = past - current and
remaining = current, and an unchanged ticker contributes nothing; with fewer
than two stored snapshots the result is empty, never an error. -/
theorem C4_portfolioChanges (hist : PortState) (days : ℕ) (t : String)
    (c p : ℤ × Snapshot) (hnod : NodupPortfolios hist)
    (hc : ((sortDesc hist).take (days + 1)).head? = some c)
    (hp : ((sortDesc hist).take (days + 1)).getLast? = some p) :
    (hist.length < 2 → get_portfolio_changes hist days = []) ∧
    ((get_portfolio_changes hist days).filter (fun ch => ch.ticker = t) =
      match dlookup t c.2.portfolio, dlookup t p.2.portfolio with
      | some cs, none => [Change.newPosition t cs]
      | some cs, some ps =>
        if ps < cs then [Change.addedTo t (cs - ps) cs]
        else if cs < ps then [Change.reduced t (ps - cs) cs]
        else []
      | none, some ps => [Change.sold t ps]
      | none, none => []) := by
  rcases htake : (sortDesc hist).take (days + 1) with _ | ⟨x, l⟩
  · rw [htake] at hc
    exact Option.noConfusion hc
  · rw [htake] at hc hp
    have hx : x = c := by simpa using hc
    subst hx
    rcases l with _ | ⟨y, l2⟩
    · have hxp : x = p := by simpa using hp
      subst hxp
      constructor
      · intro _
        unfold get_portfolio_changes
        rw [htake]
      · unfold get_portfolio_changes
        rw [htake]
        rcases dlookup t x.2.portfolio with _ | v
        · rfl
        · show ([] : List Change).filter (fun ch => ch.ticker = t) =
            if v < v then [Change.addedTo t (v - v) v]
            else if v < v then [Change.reduced t (v - v) v]
            else []
          rw [if_neg (lt_irrefl v), if_neg (lt_irrefl v)]
          rfl
    · have hxmem : x ∈ hist :=
        (perm_sortDesc hist).mem_iff.mp
          (List.mem_of_mem_take (htake ▸ List.mem_cons_self x (y :: l2)))
      have hgl : (y :: l2).getLast (List.cons_ne_nil y l2) = p := by
        rw [List.getLast?_eq_getLast _ (List.cons_ne_nil x (y :: l2))] at hp
        have := Option.some.inj hp
        rw [← this, List.getLast_cons (List.cons_ne_nil y l2)]
      have hpmem : p ∈ hist := by
        have hmem2 : p ∈ y :: l2 := hgl ▸ List.getLast_mem (List.cons_ne_nil y l2)
        exact (perm_sortDesc hist).mem_iff.mp
          (List.mem_of_mem_take
            (htake ▸ List.mem_cons.mpr (Or.inr hmem2)))
      constructor
      · intro hlt
        have hle : (x :: y :: l2).length ≤ hist.length := by
          rw [← htake, ← (perm_sortDesc hist).length_eq, List.length_take]
          exact min_le_right _ _
        simp only [List.length_cons] at hle
        omega
      · unfold get_portfolio_changes
        rw [htake]
        dsimp only
        rw [hgl]
        exact filter_diffChanges t (hnod x hxmem) (hnod p hpmem)

/-- C4 witness: two snapshots three days apart; ticker A (new position) is
classified as exactly one NEW_POSITION entry with the current share count. -/
theorem C4_portfolioChanges_witness :
    NodupPortfolios
      [((0 : ℤ), ⟨0, [("A", 10), ("B", 5)], 0, 0, 0⟩),
       ((-3 : ℤ), ⟨-3, [("B", 2), ("D", 7)], 0, 0, 0⟩)] ∧
    ((sortDesc [((0 : ℤ), (⟨0, [("A", 10), ("B", 5)], 0, 0, 0⟩ : Snapshot)),
        ((-3 : ℤ), ⟨-3, [("B", 2), ("D", 7)], 0, 0, 0⟩)]).take (7 + 1)).head? =
      some ((0 : ℤ), ⟨0, [("A", 10), ("B", 5)], 0, 0, 0⟩) ∧
    ((sortDesc [((0 : ℤ), (⟨0, [("A", 10), ("B", 5)], 0, 0, 0⟩ : Snapshot)),
        ((-3 : ℤ), ⟨-3, [("B", 2), ("D", 7)], 0, 0, 0⟩)]).take (7 + 1)).getLast? =
      some ((-3 : ℤ), ⟨-3, [("B", 2), ("D", 7)], 0, 0, 0⟩) ∧
    (([((0 : ℤ), (⟨0, [("A", 10), ("B", 5)], 0, 0, 0⟩ : Snapshot)),
        ((-3 : ℤ), ⟨-3, [("B", 2), ("D", 7)], 0, 0, 0⟩)].length < 2 →
      get_portfolio_changes
        [((0 : ℤ), ⟨0, [("A", 10), ("B", 5)], 0, 0, 0⟩),
         ((-3 : ℤ), ⟨-3, [("B", 2), ("D", 7)], 0, 0, 0⟩)] 7 = []) ∧
     (get_portfolio_changes
        [((0 : ℤ), ⟨0, [("A", 10), ("B", 5)], 0, 0, 0⟩),
         ((-3 : ℤ), ⟨-3, [("B", 2), ("D", 7)], 0, 0, 0⟩)] 7).filter
        (fun ch => ch.ticker = "A") =
      match dlookup "A" [("A", (10 : ℚ)), ("B", 5)],
          dlookup "A" [("B", (2 : ℚ)), ("D", 7)] with
      | some cs, none => [Change.newPosition "A" cs]
      | some cs, some ps =>
        if ps < cs then [Change.addedTo "A" (cs - ps) cs]
        else if cs < ps then [Change.reduced "A" (ps - cs) cs]
        else []
      | none, some ps => [Change.sold "A" ps]
      | none, none => []) :=
  ⟨by decide, by decide, by decide,
    C4_portfolioChanges
      [((0 : ℤ), ⟨0, [("A", 10), ("B", 5)], 0, 0, 0⟩),
       ((-3 : ℤ), ⟨-3, [("B", 2), ("D", 7)], 0, 0, 0⟩)] 7 "A"
      ((0 : ℤ), ⟨0, [("A", 10), ("B", 5)], 0, 0, 0⟩)
      ((-3 : ℤ), ⟨-3, [("B", 2), ("D", 7)], 0, 0, 0⟩)
      (by decide) (by decide) (by decide)⟩

/-- C5 counterexample: with a single winning outcome the claim's formula
gives winRate = 1/1 = 1, but the code stores a percentage: 100. -/
theorem C5_claim_counterexample :
    (generate_memory_summary [(0, ⟨0, "m", [("X", ⟨"BUY", 50, "r", 0⟩)]⟩)] 0 []
        [("X", (60 : ℚ))]).map Summary.win_rate = some 100 ∧
    (100 : ℚ) ≠ 1 := by
  constructor
  · norm_num [generate_memory_summary, calculate_recommendation_outcomes,
      outcomesOfStocks, dlookup, mkOutcome, get_recent_recommendations, sortDesc,
      insertDesc, expandDay, get_ignored_recommendations, ignoredFilter,
      find_repeated_stocks, dupsert]
  · norm_num

/-- C5 (amended): for every stored history, portfolio and price map on which
outcome computation succeeds, the MemorySummary has
`winRate = |outcomes with gain_pct > 0| / |outcomes| * 100` (a percentage)
and `avgGain = mean of gain_pct`, both 0 when there are no outcomes. -/
theorem C5_summary_stats (st : RecState) (now : ℚ) (port : List String)
    (prices : List (String × ℚ)) (os : List Outcome)
    (h : calculate_recommendation_outcomes st now prices = some os) :
    (generate_memory_summary st now port prices).map Summary.win_rate =
      some (winRateSpec os) ∧
    (generate_memory_summary st now port prices).map Summary.avg_gain =
      some (avgGainSpec os) := by
  unfold generate_memory_summary
  rw [h]
  cases os with
  | nil => exact ⟨rfl, rfl⟩
  | cons o rest => exact ⟨rfl, rfl⟩

/-- C5 witness: one stored record, one winning outcome; the summary fields
match the spec-side statistics of that outcome list. -/
theorem C5_summary_stats_witness :
    calculate_recommendation_outcomes [(0, ⟨0, "m", [("X", ⟨"BUY", 50, "r", 0⟩)]⟩)] 0
        [("X", (60 : ℚ))] = some [⟨0, "X", "BUY", 50, 60, 20, 0, "winning"⟩] ∧
    ((generate_memory_summary [(0, ⟨0, "m", [("X", ⟨"BUY", 50, "r", 0⟩)]⟩)] 0 []
        [("X", (60 : ℚ))]).map Summary.win_rate =
      some (winRateSpec [⟨0, "X", "BUY", 50, 60, 20, 0, "winning"⟩]) ∧
     (generate_memory_summary [(0, ⟨0, "m", [("X", ⟨"BUY", 50, "r", 0⟩)]⟩)] 0 []
        [("X", (60 : ℚ))]).map Summary.avg_gain =
      some (avgGainSpec [⟨0, "X", "BUY", 50, 60, 20, 0, "winning"⟩])) :=
  ⟨by norm_num [calculate_recommendation_outcomes, outcomesOfStocks, dlookup, mkOutcome],
    C5_summary_stats [(0, ⟨0, "m", [("X", ⟨"BUY", 50, "r", 0⟩)]⟩)] 0 []
      [("X", (60 : ℚ))] [⟨0, "X", "BUY", 50, 60, 20, 0, "winning"⟩]
      (by norm_num [calculate_recommendation_outcomes, outcomesOfStocks, dlookup, mkOutcome])⟩

/-- C6: `ignoredRecommendations` is exactly the subset of
`recentRecommendations(windowDays)` whose action equals "BUY" (exact,
case-sensitive) and whose ticker is not in the supplied portfolio tickers: a
qualifying BUY recommendation is in the result iff its ticker is absent from
the portfolio. -/
theorem C6_ignoredRecommendations (st : RecState) (now : ℚ) (port : List String)
    (days : ℕ) (r : RecRecord) :
    get_ignored_recommendations st now port days =
      (get_recent_recommendations st now none days).filter
        (fun rec => rec.info.action = "BUY" ∧ rec.ticker ∉ port) ∧
    (r ∈ get_ignored_recommendations st now port days ↔
      r ∈ get_recent_recommendations st now none days ∧
        r.info.action = "BUY" ∧ r.ticker ∉ port) := by
  have hfil : ∀ l : List RecRecord, ignoredFilter port l =
      l.filter (fun rec => rec.info.action = "BUY" ∧ rec.ticker ∉ port) := by
    intro l
    induction l with
    | nil => rfl
    | cons rec rest ih =>
      rw [ignoredFilter]
      by_cases hcnd : rec.info.action = "BUY" ∧ rec.ticker ∉ port
      · rw [if_pos hcnd, List.filter_cons_of_pos (by simpa using hcnd), ih]
      · rw [if_neg hcnd, List.filter_cons_of_neg (by simpa using hcnd), ih]
  constructor
  · rw [get_ignored_recommendations, hfil]
  · rw [get_ignored_recommendations, hfil, List.mem_filter]
    simp

/-- C7 counterexample: on a ticker with no prior recommendation the reason
string is "First time recommending" (capital F), not the claimed
"first time recommending". -/
theorem C7_claim_counterexample :
    should_recommend_again [] 0 "T" 3 = (true, "First time recommending") ∧
    ("First time recommending" : String) ≠ "first time recommending" := by
  constructor
  · rfl
  · decide

/-- C7 (amended): `shouldRecommendAgain(ticker, minDaysSinceLast)` returns
`(true, "First time recommending")` when no recommendation exists for the
ticker within the window, and otherwise `(false, reason)` with the reason
citing the count of recent recommendations; the result is a function of that
count alone (a flat day-count gate, no price comparison), and after one
recommendation is recorded for the ticker today the same call (window 3)
returns allowed = false. -/
theorem C7_shouldRecommendAgain (st : RecState) (now : ℚ) (ticker : String)
    (d : ℕ) :
    should_recommend_again st now ticker d =
      (if count_recommendations st now ticker d = 0 then
        (true, "First time recommending")
       else
        (false, "Already recommended " ++ toString (count_recommendations st now ticker d) ++
          " times in last " ++ toString d ++ " days")) ∧
    (∀ (a : String) (p : ℚ) (rs ss : String), ticker ≠ "" →
      (should_recommend_again (save_recommendation st now ticker a p rs ss)
        now ticker 3).1 = false) := by
  constructor
  · unfold should_recommend_again count_recommendations
    cases get_recent_recommendations st now (some ticker) d with
    | nil => rfl
    | cons r rest => rfl
  · intro a p rs ss ht
    obtain ⟨day', hday', hstock⟩ : ∃ day',
        dlookup ⌊now⌋ (save_recommendation st now ticker a p rs ss) = some day' ∧
        dlookup ticker day'.stocks = some ⟨a, p, rs, now⟩ := by
      rw [save_recommendation, dlookup_dupsert]
      rcases dlookup ⌊now⌋ st with _ | day
      · refine ⟨_, rfl, ?_⟩
        show dlookup ticker [(ticker, (⟨a, p, rs, now⟩ : StockData))] =
          some ⟨a, p, rs, now⟩
        rw [dlookup, if_pos rfl]
      · refine ⟨_, rfl, ?_⟩
        show dlookup ticker (dinsert ticker (⟨a, p, rs, now⟩ : StockData) day.stocks) =
          some ⟨a, p, rs, now⟩
        exact dlookup_dinsert ticker _ day.stocks
    have hwin : ¬((⌊now⌋ : ℚ) < now - ((3 : ℕ) : ℚ)) := by
      have h1 := Int.lt_floor_add_one now
      push_cast
      linarith
    have hmem : (⟨⌊now⌋, ticker, ⟨a, p, rs, now⟩⟩ : RecRecord) ∈
        get_recent_recommendations (save_recommendation st now ticker a p rs ss)
          now (some ticker) 3 := by
      rw [get_recent_recommendations,
        takeWhile_eq_filter_of_sorted (window_mono now 3) (sorted_sortDesc _),
        List.mem_flatMap]
      refine ⟨(⌊now⌋, day'),
        List.mem_filter.mpr
          ⟨(perm_sortDesc _).mem_iff.mpr (dlookup_mem hday'), by simpa using hwin⟩, ?_⟩
      show (⟨⌊now⌋, ticker, ⟨a, p, rs, now⟩⟩ : RecRecord) ∈
        (if ticker = "" then day'.stocks.map (fun q => (⟨⌊now⌋, q.1, q.2⟩ : RecRecord))
         else match dlookup ticker day'.stocks with
              | some sd => [⟨⌊now⌋, ticker, sd⟩]
              | none => [])
      rw [if_neg ht, hstock]
      exact List.mem_singleton.mpr rfl
    have hne : get_recent_recommendations (save_recommendation st now ticker a p rs ss)
        now (some ticker) 3 ≠ [] := List.ne_nil_of_mem hmem
    unfold should_recommend_again
    rw [if_neg (fun hemp => hne (List.isEmpty_iff.mp hemp))]

/-- C7 witness: recording a recommendation for "T" today and asking again the
same day with the default 3-day window is refused. -/
theorem C7_shouldRecommendAgain_witness :
    ("T" : String) ≠ "" ∧
    (should_recommend_again (save_recommendation [] 0 "T" "BUY" 10 "r" "morning")
      0 "T" 3).1 = false :=
  ⟨by decide, (C7_shouldRecommendAgain [] 0 "T" 3).2 "BUY" 10 "r" "morning" (by decide)⟩

/-- C8: a failure to read a backing table (missing or corrupt store) is
non-fatal — the constructor loads the table as empty and every read
operation returns empty structures — while a failure to persist during any
of the three write operations propagates to the caller as an error. -/
theorem C8_failure_semantics :
    (initMemory ReadResult.missing ReadResult.corrupt ReadResult.missing =
      ⟨[], [], []⟩) ∧
    (∀ now tk days, get_recent_recommendations [] now tk days = []) ∧
    (∀ days, get_portfolio_changes [] days = []) ∧
    (∀ now prices, calculate_recommendation_outcomes [] now prices = some []) ∧
    (∀ now port days, get_ignored_recommendations [] now port days = []) ∧
    (∀ now port prices,
      generate_memory_summary [] now port prices = some ⟨0, 0, 0, 0, [], [], [], []⟩) ∧
    (∀ m now t a p rs ss,
      save_recommendation_op true m now t a p rs ss = .error .writeError) ∧
    (∀ m now pf cash tv,
      save_portfolio_snapshot_op true m now pf cash tv = .error .writeError) ∧
    (∀ m now tsx oil usd ev,
      save_market_context_op true m now tsx oil usd ev = .error .writeError) ∧
    (∀ m now t a p rs ss,
      save_recommendation_op false m now t a p rs ss =
        .ok { m with recommendations := save_recommendation m.recommendations now t a p rs ss }) :=
  ⟨rfl, fun _ _ _ => rfl, fun _ => rfl, fun _ _ => rfl, fun _ _ _ => rfl,
    fun _ _ _ => rfl, fun _ _ _ _ _ _ _ => rfl, fun _ _ _ _ _ => rfl,
    fun _ _ _ _ _ _ => rfl, fun _ _ _ _ _ _ _ => rfl⟩

/-- C10: the ignored-recommendations component of the summary is the first 5
elements of the full `ignoredRecommendations` result over the 7-day window,
hence never more than 5 entries. -/
theorem C10_ignored_truncation (st : RecState) (now : ℚ) (port : List String)
    (prices : List (String × ℚ)) (s : Summary)
    (h : generate_memory_summary st now port prices = some s) :
    s.ignored_stocks = (get_ignored_recommendations st now port 7).take 5 ∧
    s.ignored_stocks.length ≤ 5 := by
  unfold generate_memory_summary at h
  rcases hcalc : calculate_recommendation_outcomes st now prices with _ | os <;>
    rw [hcalc] at h
  · exact Option.noConfusion h
  · obtain rfl := (Option.some.inj h).symm
    refine ⟨rfl, ?_⟩
    show ((get_ignored_recommendations st now port 7).take 5).length ≤ 5
    rw [List.length_take]
    exact min_le_left _ _

/-- C10 witness: on a store with one ignored BUY recommendation the summary's
ignored component is the 5-truncation of the full list (of length 1 ≤ 5). -/
theorem C10_ignored_truncation_witness :
    generate_memory_summary [(0, ⟨0, "m", [("X", ⟨"BUY", 50, "r", 0⟩)]⟩)] 0 []
        [("X", (0 : ℚ))] =
      some ⟨1, 0, 0, 0, [], [], [⟨0, "X", ⟨"BUY", 50, "r", 0⟩⟩], []⟩ ∧
    ((⟨1, 0, 0, 0, [], [], [⟨0, "X", ⟨"BUY", 50, "r", 0⟩⟩], []⟩ : Summary).ignored_stocks =
      (get_ignored_recommendations [(0, ⟨0, "m", [("X", ⟨"BUY", 50, "r", 0⟩)]⟩)] 0 [] 7).take 5 ∧
     (⟨1, 0, 0, 0, [], [], [⟨0, "X", ⟨"BUY", 50, "r", 0⟩⟩], []⟩ : Summary).ignored_stocks.length ≤ 5) :=
  ⟨by norm_num [generate_memory_summary, calculate_recommendation_outcomes,
      outcomesOfStocks, dlookup, mkOutcome, get_recent_recommendations, sortDesc,
      insertDesc, expandDay, get_ignored_recommendations, ignoredFilter,
      find_repeated_stocks, dupsert],
    C10_ignored_truncation [(0, ⟨0, "m", [("X", ⟨"BUY", 50, "r", 0⟩)]⟩)] 0 []
      [("X", (0 : ℚ))] ⟨1, 0, 0, 0, [], [], [⟨0, "X", ⟨"BUY", 50, "r", 0⟩⟩], []⟩
      (by norm_num [generate_memory_summary, calculate_recommendation_outcomes,
        outcomesOfStocks, dlookup, mkOutcome, get_recent_recommendations, sortDesc,
        insertDesc, expandDay, get_ignored_recommendations, ignoredFilter,
        find_repeated_stocks, dupsert])⟩

end AgentMemory
